import Mathlib

/-!
Verification of the stateful-list / key-dispatch core of the TUI-Frontend
repository (`src/main.rs`).

The Rust `StatefulList<T>` couples a `Vec<T>` with a `ListState` whose
`selected()` is an optional index.  We embed it as a structure with a
`state : Option Nat` and `items : List α`.  The Rust `next`/`previous`
methods compute `self.items.len() - 1` on `usize`; on an empty vector that
subtraction underflows (a panic in debug builds), so the embedded
operations return `Option (StatefulList α)`, with `none` exactly when the
Rust code would perform the underflowing subtraction.
-/

structure StatefulList (α : Type) where
  state : Option Nat
  items : List α
deriving Repr, DecidableEq

namespace StatefulList

/-- `StatefulList::with_items`: constructs with the default (absent) selection. -/
def with_items {α : Type} (items : List α) : StatefulList α :=
  { state := none, items := items }

/-- `StatefulList::next` (src/main.rs lines 27-39).  When a selection is
present the Rust code evaluates `self.items.len() - 1`, which underflows on
an empty vector; that case is `none`. -/
def next {α : Type} (l : StatefulList α) : Option (StatefulList α) :=
  match l.state with
  | some i =>
      if l.items.length = 0 then
        none
      else
        some { l with state := some (if i ≥ l.items.length - 1 then 0 else i + 1) }
  | none => some { l with state := some 0 }

/-- `StatefulList::previous` (src/main.rs lines 41-53).  `self.items.len() - 1`
is only evaluated in the `i == 0` branch, so only that branch can underflow. -/
def previous {α : Type} (l : StatefulList α) : Option (StatefulList α) :=
  match l.state with
  | some i =>
      if i = 0 then
        if l.items.length = 0 then
          none
        else
          some { l with state := some (l.items.length - 1) }
      else
        some { l with state := some (i - 1) }
  | none => some { l with state := some 0 }

/-- `StatefulList::unselect` (src/main.rs lines 55-57). -/
def unselect {α : Type} (l : StatefulList α) : StatefulList α :=
  { l with state := none }

/-- The documented representation invariant: the cursor is absent or a valid
index into `items`. -/
def invariant {α : Type} (l : StatefulList α) : Bool :=
  match l.state with
  | none => true
  | some i => decide (i < l.items.length)

/-- Iterated `next`, sequencing the possible underflow through `Option.bind`. -/
def nextN {α : Type} (l : StatefulList α) : Nat → Option (StatefulList α)
  | 0 => some l
  | k + 1 => (nextN l k).bind next

end StatefulList

/-- `App` (src/main.rs lines 60-63): the primary list and the tab strip. -/
structure App where
  items : StatefulList (String × Nat)
  titles : StatefulList (String × Nat)
deriving Repr, DecidableEq

/-- `App::new` (src/main.rs lines 66-80). -/
def App.new : App :=
  { items := StatefulList.with_items [("Item0", 1), ("Item1", 2), ("Item2", 3)],
    titles := StatefulList.with_items [("Test0", 1), ("Test1", 2), ("Test2", 3), ("Test3", 4)] }

/-- The crossterm `KeyCode` constructors of the version in use. -/
inductive KeyCode where
  | Backspace
  | Enter
  | Left
  | Right
  | Up
  | Down
  | Home
  | PageUp
  | PageDown
  | Tab
  | BackTab
  | Delete
  | Insert
  | F (n : Nat)
  | Char (c : Char)
  | Null
  | Esc
deriving Repr, DecidableEq

/-- Outcome of one key dispatch inside `run_app`'s loop: return from the
function (`quit`), continue with a mutated `App`, or hit the usize underflow
in `next`/`previous` (`fatal`). -/
inductive StepResult where
  | quit : StepResult
  | cont (a : App) : StepResult
  | fatal : StepResult
deriving Repr, DecidableEq

/-- The key-event `match` of `run_app` (src/main.rs lines 127-142), one arm
per `KeyCode`; the character arms keep the source order of the literals. -/
def dispatch (app : App) (key : KeyCode) : StepResult :=
  match key with
  | .Char c =>
      if c = 'q' then .quit
      else if c = 'j' then
        match app.items.next with
        | some l => .cont { app with items := l }
        | none => .fatal
      else if c = 'k' then
        match app.items.previous with
        | some l => .cont { app with items := l }
        | none => .fatal
      else if c = 'u' then .cont { app with items := app.items.unselect }
      else if c = 'm' then
        .cont { app with items := StatefulList.with_items [("test", 1), ("Testing", 2)] }
      else .cont app
  | .Down =>
      match app.items.next with
      | some l => .cont { app with items := l }
      | none => .fatal
  | .Up =>
      match app.items.previous with
      | some l => .cont { app with items := l }
      | none => .fatal
  | .Tab =>
      match app.items.next with
      | some l => .cont { app with items := l }
      | none => .fatal
  | .Left =>
      match app.titles.previous with
      | some l => .cont { app with titles := l }
      | none => .fatal
  | .Right =>
      match app.titles.next with
      | some l => .cont { app with titles := l }
      | none => .fatal
  | _ => .cont app

/-- The key-to-action table of the specification (§4.3), written row by row:
`q` terminates; Down, `j`, Tab advance the primary list; Up, `k` step it
back; `u` unselects it; `m` replaces it with the fixed two-entry set; Left
and Right step the tab strip; everything else is ignored. -/
def dispatchSpec (app : App) (key : KeyCode) : StepResult :=
  if key = .Char 'q' then .quit
  else if key = .Down ∨ key = .Char 'j' ∨ key = .Tab then
    match app.items.next with
    | some l => .cont { app with items := l }
    | none => .fatal
  else if key = .Up ∨ key = .Char 'k' then
    match app.items.previous with
    | some l => .cont { app with items := l }
    | none => .fatal
  else if key = .Char 'u' then .cont { app with items := app.items.unselect }
  else if key = .Char 'm' then
    .cont { app with items := StatefulList.with_items [("test", 1), ("Testing", 2)] }
  else if key = .Left then
    match app.titles.previous with
    | some l => .cont { app with titles := l }
    | none => .fatal
  else if key = .Right then
    match app.titles.next with
    | some l => .cont { app with titles := l }
    | none => .fatal
  else .cont app

/-- The tab widget built by `ui` (src/main.rs lines 179-188): the labels in
order and the argument passed to `.select(...)`. -/
structure TabsWidget where
  titles : List String
  selected : Nat
deriving Repr, DecidableEq

/-- The `Tabs` construction in `ui`: labels come from the tab strip in order,
and `.select` receives the selected index, or `0` when none is selected. -/
def uiTabs (app : App) : TabsWidget :=
  { titles := app.titles.items.map (fun i => i.1),
    selected :=
      match app.titles.state with
      | some x => x
      | none => 0 }

namespace StatefulList

theorem next_items {α : Type} {l l' : StatefulList α} (h : l.next = some l') :
    l'.items = l.items := by
  obtain ⟨s, items⟩ := l
  cases s with
  | none =>
      injection h with h
      subst h
      rfl
  | some i =>
      simp only [next] at h
      split at h
      · exact Option.noConfusion h
      · injection h with h
        subst h
        rfl

theorem previous_items {α : Type} {l l' : StatefulList α} (h : l.previous = some l') :
    l'.items = l.items := by
  obtain ⟨s, items⟩ := l
  cases s with
  | none =>
      injection h with h
      subst h
      rfl
  | some i =>
      simp only [previous] at h
      split at h
      · split at h
        · exact Option.noConfusion h
        · injection h with h
          subst h
          rfl
      · injection h with h
        subst h
        rfl

end StatefulList

/-- Claim C6: from an absent cursor, `next` selects index 0, and `previous`
also selects index 0 (not the last index). -/
theorem absent_cursor_both_select_zero {α : Type} (l : StatefulList α)
    (h : l.state = none) :
    l.next = some { l with state := some 0 } ∧
    l.previous = some { l with state := some 0 } := by
  obtain ⟨s, items⟩ := l
  cases s with
  | none => exact ⟨rfl, rfl⟩
  | some i => exact Option.noConfusion h

theorem absent_cursor_both_select_zero_witness :
    (⟨none, [0]⟩ : StatefulList Nat).state = none ∧
    ((⟨none, [0]⟩ : StatefulList Nat).next = some ⟨some 0, [0]⟩ ∧
     (⟨none, [0]⟩ : StatefulList Nat).previous = some ⟨some 0, [0]⟩) :=
  ⟨rfl, absent_cursor_both_select_zero ⟨none, [0]⟩ rfl⟩

/-- Claim C7: on a non-empty item list, `next` and `previous` never hit the
underflowing subtraction: both always produce a successor state.
(`unselect` is total outright: it returns a `StatefulList`, not an
`Option`.) -/
theorem nav_total_on_nonempty {α : Type} (l : StatefulList α)
    (h : l.items ≠ []) :
    (l.next).isSome = true ∧ (l.previous).isSome = true := by
  have hlen : l.items.length ≠ 0 := by
    simpa [List.length_eq_zero] using h
  unfold StatefulList.next StatefulList.previous
  cases l.state with
  | none => simp
  | some i =>
      refine ⟨by simp [hlen], ?_⟩
      by_cases hi : i = 0 <;> simp [hi, hlen]

theorem nav_total_on_nonempty_witness :
    (⟨some 0, [5]⟩ : StatefulList Nat).items ≠ [] ∧
    (((⟨some 0, [5]⟩ : StatefulList Nat).next).isSome = true ∧
     ((⟨some 0, [5]⟩ : StatefulList Nat).previous).isSome = true) :=
  ⟨by decide, nav_total_on_nonempty ⟨some 0, [5]⟩ (by decide)⟩

/-- Claim C10: whenever `next` or `previous` succeeds, the resulting cursor
is present; only `unselect` and item replacement (`with_items`) leave the
cursor absent. -/
theorem nav_always_selects {α : Type} (l l' : StatefulList α)
    (h : l.next = some l' ∨ l.previous = some l') :
    l'.state.isSome = true ∧
    l.unselect.state = none ∧
    (StatefulList.with_items l.items).state = none := by
  refine ⟨?_, rfl, rfl⟩
  obtain ⟨s, items⟩ := l
  rcases h with h | h
  · cases s with
    | none =>
        injection h with h
        subst h
        rfl
    | some i =>
        simp only [StatefulList.next] at h
        split at h
        · exact Option.noConfusion h
        · injection h with h
          subst h
          rfl
  · cases s with
    | none =>
        injection h with h
        subst h
        rfl
    | some i =>
        simp only [StatefulList.previous] at h
        split at h
        · split at h
          · exact Option.noConfusion h
          · injection h with h
            subst h
            rfl
        · injection h with h
          subst h
          rfl

theorem nav_always_selects_witness :
    ((⟨none, [0]⟩ : StatefulList Nat).next = some ⟨some 0, [0]⟩ ∨
     (⟨none, [0]⟩ : StatefulList Nat).previous = some ⟨some 0, [0]⟩) ∧
    ((⟨some 0, [0]⟩ : StatefulList Nat).state.isSome = true ∧
     (⟨none, [0]⟩ : StatefulList Nat).unselect.state = none ∧
     (StatefulList.with_items (⟨none, [0]⟩ : StatefulList Nat).items).state = none) :=
  ⟨Or.inl (by decide), nav_always_selects ⟨none, [0]⟩ ⟨some 0, [0]⟩ (Or.inl (by decide))⟩

/-- Claim C2 (violation at the failing input): the empty list with an absent
cursor satisfies the invariant, yet `next` succeeds on it and produces the
cursor `some 0`, which is out of bounds for the empty item list. -/
theorem empty_next_breaks_invariant :
    StatefulList.invariant (⟨none, []⟩ : StatefulList Nat) = true ∧
    StatefulList.next (⟨none, []⟩ : StatefulList Nat) = some ⟨some 0, []⟩ ∧
    StatefulList.invariant (⟨some 0, []⟩ : StatefulList Nat) = false := by
  decide

/-- Claim C1 (counterexample): on a singleton list with an absent cursor,
`next` then `previous` ends with cursor `some 0`, not the original `none`. -/
theorem next_then_previous_moves_absent_cursor :
    ((⟨none, [0]⟩ : StatefulList Nat).next.bind StatefulList.previous) =
      some ⟨some 0, [0]⟩ ∧
    (⟨some 0, [0]⟩ : StatefulList Nat).state ≠
      (⟨none, [0]⟩ : StatefulList Nat).state := by
  decide

/-- Claim C1 (amended): when the cursor is present at a valid index,
`next` followed by `previous` restores the original state exactly. -/
theorem next_then_previous_inverse {α : Type} (l : StatefulList α) (i : Nat)
    (hs : l.state = some i) (hi : i < l.items.length) :
    l.next.bind StatefulList.previous = some l := by
  obtain ⟨s, items⟩ := l
  simp only at hs hi
  subst hs
  have hlen : items.length ≠ 0 := by omega
  by_cases hc : i ≥ items.length - 1
  · have hi' : i = items.length - 1 := by omega
    subst hi'
    simp [StatefulList.next, StatefulList.previous, hlen]
  · simp [StatefulList.next, StatefulList.previous, hlen, hc]

theorem next_then_previous_inverse_witness :
    (⟨some 1, [10, 20, 30]⟩ : StatefulList Nat).state = some 1 ∧
    1 < (⟨some 1, [10, 20, 30]⟩ : StatefulList Nat).items.length ∧
    (⟨some 1, [10, 20, 30]⟩ : StatefulList Nat).next.bind StatefulList.previous =
      some ⟨some 1, [10, 20, 30]⟩ :=
  ⟨rfl, by decide, next_then_previous_inverse ⟨some 1, [10, 20, 30]⟩ 1 rfl (by decide)⟩

theorem nextN_from_absent {α : Type} (items : List α) (k : Nat)
    (hk : k < items.length) :
    StatefulList.nextN ⟨none, items⟩ (k + 1) = some ⟨some k, items⟩ := by
  induction k with
  | zero =>
      simp [StatefulList.nextN, StatefulList.next]
  | succ k ih =>
      have hk' : k < items.length := Nat.lt_of_succ_lt hk
      have hlen : items.length ≠ 0 := by omega
      have hlt : ¬ k ≥ items.length - 1 := by omega
      rw [StatefulList.nextN, ih hk']
      simp [StatefulList.next, hlen, hlt]
      omega

/-- Claim C5: from an absent cursor on a non-empty list of length `n`, the
first `n` calls of `next` select the indices `0, 1, …, n-1` in order, and
the `(n+1)`-th call wraps back to index 0. -/
theorem next_cyclic_coverage {α : Type} (items : List α) (h : items ≠ []) :
    (∀ k, k < items.length →
      StatefulList.nextN ⟨none, items⟩ (k + 1) = some ⟨some k, items⟩) ∧
    StatefulList.nextN ⟨none, items⟩ (items.length + 1) = some ⟨some 0, items⟩ := by
  have hlen : items.length ≠ 0 := by
    simpa [List.length_eq_zero] using h
  refine ⟨fun k hk => nextN_from_absent items k hk, ?_⟩
  have h1 : items.length - 1 < items.length := by omega
  rw [show items.length + 1 = items.length - 1 + 1 + 1 by omega,
    StatefulList.nextN, nextN_from_absent items _ h1]
  simp [StatefulList.next, hlen]
  omega

theorem next_cyclic_coverage_witness :
    ([10, 20] : List Nat) ≠ [] ∧
    ((∀ k, k < ([10, 20] : List Nat).length →
        StatefulList.nextN ⟨none, [10, 20]⟩ (k + 1) = some ⟨some k, [10, 20]⟩) ∧
      StatefulList.nextN (⟨none, [10, 20]⟩ : StatefulList Nat)
        (([10, 20] : List Nat).length + 1) = some ⟨some 0, [10, 20]⟩) :=
  ⟨by decide, next_cyclic_coverage [10, 20] (by decide)⟩

/-- Claim C3: the `run_app` key `match` implements exactly the key-to-action
table of the specification (dispatch is a function, hence deterministic). -/
theorem dispatch_implements_table (app : App) (key : KeyCode) :
    dispatch app key = dispatchSpec app key := by
  cases key with
  | Char c =>
      by_cases hq : c = 'q'
      · simp [dispatch, dispatchSpec, hq]
      · by_cases hj : c = 'j'
        · simp [dispatch, dispatchSpec, hq, hj]
        · by_cases hk : c = 'k'
          · simp [dispatch, dispatchSpec, hq, hj, hk]
          · by_cases hu : c = 'u'
            · simp [dispatch, dispatchSpec, hq, hj, hk, hu]
            · by_cases hm : c = 'm'
              · simp [dispatch, dispatchSpec, hq, hj, hk, hu, hm]
              · simp [dispatch, dispatchSpec, hq, hj, hk, hu, hm]
  | _ => simp [dispatch, dispatchSpec]

/-- Claim C4: pressing `m` replaces the primary list's items with exactly
`("test", 1)` and `("Testing", 2)`, leaves its cursor absent, and keeps the
tab strip untouched. -/
theorem key_m_replaces_primary (app : App) :
    dispatch app (.Char 'm') =
      .cont { app with items := ⟨none, [("test", 1), ("Testing", 2)]⟩ } :=
  rfl

/-- Claim C8: when a dispatched key continues the loop, Left and Right leave
the primary list untouched (and change at most the tab strip's cursor, not
its items), while the primary-list keys Down, Up, Tab, `j`, `k`, `u`, `m`
leave the tab strip entirely untouched. -/
theorem dispatch_frame (app app' : App) (key : KeyCode)
    (h : dispatch app key = .cont app') :
    ((key = .Left ∨ key = .Right) →
      app'.items = app.items ∧ app'.titles.items = app.titles.items) ∧
    ((key = .Down ∨ key = .Up ∨ key = .Tab ∨
      key = .Char 'j' ∨ key = .Char 'k' ∨ key = .Char 'u' ∨ key = .Char 'm') →
      app'.titles = app.titles) := by
  cases key with
  | Left =>
      refine ⟨fun _ => ?_, fun hc => by simp at hc⟩
      simp only [dispatch] at h
      split at h
      · rename_i l hp
        injection h with h
        subst h
        exact ⟨rfl, StatefulList.previous_items hp⟩
      · exact StepResult.noConfusion h
  | Right =>
      refine ⟨fun _ => ?_, fun hc => by simp at hc⟩
      simp only [dispatch] at h
      split at h
      · rename_i l hp
        injection h with h
        subst h
        exact ⟨rfl, StatefulList.next_items hp⟩
      · exact StepResult.noConfusion h
  | Down =>
      refine ⟨fun hc => by simp at hc, fun _ => ?_⟩
      simp only [dispatch] at h
      split at h
      · injection h with h
        subst h
        rfl
      · exact StepResult.noConfusion h
  | Up =>
      refine ⟨fun hc => by simp at hc, fun _ => ?_⟩
      simp only [dispatch] at h
      split at h
      · injection h with h
        subst h
        rfl
      · exact StepResult.noConfusion h
  | Tab =>
      refine ⟨fun hc => by simp at hc, fun _ => ?_⟩
      simp only [dispatch] at h
      split at h
      · injection h with h
        subst h
        rfl
      · exact StepResult.noConfusion h
  | Char c =>
      refine ⟨fun hc => by simp at hc, fun hc => ?_⟩
      have hc' : c = 'j' ∨ c = 'k' ∨ c = 'u' ∨ c = 'm' := by simpa using hc
      simp only [dispatch] at h
      rcases hc' with hc' | hc' | hc' | hc' <;> subst hc'
      · rw [if_neg (by decide), if_pos rfl] at h
        split at h
        · injection h with h
          subst h
          rfl
        · exact StepResult.noConfusion h
      · rw [if_neg (by decide), if_neg (by decide), if_pos rfl] at h
        split at h
        · injection h with h
          subst h
          rfl
        · exact StepResult.noConfusion h
      · rw [if_neg (by decide), if_neg (by decide), if_neg (by decide), if_pos rfl] at h
        injection h with h
        subst h
        rfl
      · rw [if_neg (by decide), if_neg (by decide), if_neg (by decide),
          if_neg (by decide), if_pos rfl] at h
        injection h with h
        subst h
        rfl
  | Backspace => exact ⟨fun hc => by simp at hc, fun hc => by simp at hc⟩
  | Enter => exact ⟨fun hc => by simp at hc, fun hc => by simp at hc⟩
  | Home => exact ⟨fun hc => by simp at hc, fun hc => by simp at hc⟩
  | PageUp => exact ⟨fun hc => by simp at hc, fun hc => by simp at hc⟩
  | PageDown => exact ⟨fun hc => by simp at hc, fun hc => by simp at hc⟩
  | BackTab => exact ⟨fun hc => by simp at hc, fun hc => by simp at hc⟩
  | Delete => exact ⟨fun hc => by simp at hc, fun hc => by simp at hc⟩
  | Insert => exact ⟨fun hc => by simp at hc, fun hc => by simp at hc⟩
  | F n => exact ⟨fun hc => by simp at hc, fun hc => by simp at hc⟩
  | Null => exact ⟨fun hc => by simp at hc, fun hc => by simp at hc⟩
  | Esc => exact ⟨fun hc => by simp at hc, fun hc => by simp at hc⟩

theorem dispatch_frame_witness :
    dispatch App.new KeyCode.Left =
      .cont ⟨App.new.items, ⟨some 0, App.new.titles.items⟩⟩ ∧
    (((KeyCode.Left = KeyCode.Left ∨ KeyCode.Left = KeyCode.Right) →
        (⟨App.new.items, ⟨some 0, App.new.titles.items⟩⟩ : App).items = App.new.items ∧
        (⟨App.new.items, ⟨some 0, App.new.titles.items⟩⟩ : App).titles.items =
          App.new.titles.items) ∧
     ((KeyCode.Left = KeyCode.Down ∨ KeyCode.Left = KeyCode.Up ∨
       KeyCode.Left = KeyCode.Tab ∨ KeyCode.Left = KeyCode.Char 'j' ∨
       KeyCode.Left = KeyCode.Char 'k' ∨ KeyCode.Left = KeyCode.Char 'u' ∨
       KeyCode.Left = KeyCode.Char 'm') →
        (⟨App.new.items, ⟨some 0, App.new.titles.items⟩⟩ : App).titles =
          App.new.titles)) :=
  ⟨rfl, dispatch_frame App.new ⟨App.new.items, ⟨some 0, App.new.titles.items⟩⟩
    KeyCode.Left rfl⟩

/-- Claim C9: the index the renderer passes to the tab widget's `select` is
the tab strip's cursor when present, and 0 when the cursor is absent. -/
theorem tabs_select_rule (app : App) :
    (uiTabs app).selected = app.titles.state.getD 0 := by
  cases h : app.titles.state <;> simp [uiTabs, h]
